import Mathlib

/-!
Verification of the UI layer (`src/App.svelte`) of the mobinogi-mml-converter
repository, as a shallow embedding in Lean.

JavaScript numbers are modelled as `Int` where the code only ever holds
integers (counts, character limits) and as `ℚ` where fractional values occur
(durations in seconds).  JavaScript strings are modelled as Lean `String`;
`localeCompare` is kept abstract as a comparison parameter
`lc : String → String → Int`, since its result is locale-dependent.
-/

/-- One converted voice, as received from the engine (`VoiceResult` in App.svelte). -/
structure VoiceResult where
  name : String
  content : String
  char_count : Int
  note_count : Int
  duration : ℚ
deriving DecidableEq, Repr

/-- Result record of the `convert_midi` invocation (`ConversionResult` in App.svelte). -/
structure ConversionResult where
  success : Bool
  voices : List VoiceResult
  error : Option String
  bpm : ℚ
  total_notes : Int
deriving DecidableEq, Repr

/-- The melody test used by both filters in `getSortedVoices`
(line 27: name equals or starts with the melody prefix). -/
def isMelody (v : VoiceResult) : Bool :=
  v.name == "멜로디" || v.name.startsWith ("멜로디")

/-- First parenthesized group of a character list, as matched by the regular
expression for a group of one or more characters other than the closing
parenthesis, enclosed in parentheses (App.svelte lines 35-36): leftmost
position where an opening parenthesis is followed by a nonempty run of
non-closing characters and then a closing parenthesis. -/
def firstParenGroup : List Char → Option (List Char)
  | [] => none
  | c :: rest =>
    if c = '(' then
      let run := rest.takeWhile (fun d => decide (d ≠ ')'))
      let rest2 := rest.dropWhile (fun d => decide (d ≠ ')'))
      if run ≠ [] ∧ rest2 ≠ [] then some run
      else firstParenGroup rest
    else firstParenGroup rest

/-- Instrument name extracted from a voice name: content of the first
parenthesized group, or the empty string when the pattern does not match
(the JS optional-chain with fallback on lines 35-36). -/
def extractInstrument (s : String) : String :=
  match firstParenGroup s.data with
  | some cs => String.mk cs
  | none => ""

/-- The comparator passed to `sort` when sorting by note count (line 32). -/
def notesCompare (a b : VoiceResult) : Int :=
  b.note_count - a.note_count

/-- The comparator passed to `sort` when sorting by instrument (lines 34-42). -/
def instrumentCompare (lc : String → String → Int) (a b : VoiceResult) : Int :=
  let instA := extractInstrument a.name
  let instB := extractInstrument b.name
  if instA == instB then b.note_count - a.note_count
  else lc instA instB

/-- Boolean order derived from a JS comparator: `a` may precede `b`
iff the comparator is nonpositive on `(a, b)`. -/
def compareLe (c : α → α → Int) (a b : α) : Bool :=
  decide (c a b ≤ 0)

/-- Model of `Array.prototype.sort` with a consistent comparator: a stable
sort by the derived boolean order (insertion sort is stable, and for a
consistent comparator every stable sort returns the same list). -/
def jsSort (le : α → α → Bool) (l : List α) : List α :=
  List.insertionSort (fun a b => le a b = true) l

/-- Shallow embedding of `getSortedVoices` (App.svelte lines 23-46).
`voices` is `Option`al because the guard on line 24 also accepts a missing
(null/undefined) list. -/
def getSortedVoices (lc : String → String → Int)
    (voices : Option (List VoiceResult)) (sortBy : String) : List VoiceResult :=
  match voices with
  | none => []
  | some vs =>
    if vs.length = 0 then []
    else
      let melody := vs.filter (fun v => v.name == "멜로디" || v.name.startsWith ("멜로디"))
      let others := vs.filter (fun v => !(v.name == "멜로디") && !(v.name.startsWith ("멜로디")))
      let sorted :=
        if sortBy == "notes" then jsSort (compareLe notesCompare) others
        else if sortBy == "instrument" then jsSort (compareLe (instrumentCompare lc)) others
        else others
      melody ++ sorted

/-- A tiny heap of JS array values, making aliasing and the in-place
mutation performed by `Array.prototype.sort` observable.  A reference is an
index into the heap. -/
structure JsHeap where
  cells : List (List VoiceResult)
deriving Repr

/-- Dereference a JS array reference. -/
def JsHeap.read (h : JsHeap) (r : Nat) : List VoiceResult :=
  (h.cells[r]?).getD []

/-- Allocate a fresh JS array holding `v`; returns the new heap and the
fresh reference. -/
def JsHeap.alloc (h : JsHeap) (v : List VoiceResult) : JsHeap × Nat :=
  (⟨h.cells ++ [v]⟩, h.cells.length)

/-- Overwrite the array behind reference `r` (models in-place `sort`). -/
def JsHeap.write (h : JsHeap) (r : Nat) (v : List VoiceResult) : JsHeap :=
  ⟨h.cells.set r v⟩

/-- Heap-level embedding of `getSortedVoices` (App.svelte lines 23-46):
`filter` allocates fresh arrays, `sort` mutates the freshly filtered array
in place, and the spread on line 45 allocates the returned array.  The
argument array is only ever read. -/
def getSortedVoicesHeap (lc : String → String → Int) (h : JsHeap)
    (voices : Option Nat) (sortBy : String) : JsHeap × Nat :=
  match voices with
  | none => h.alloc []
  | some r =>
    let vs := h.read r
    if vs.length = 0 then h.alloc []
    else
      let alloc1 := h.alloc (vs.filter (fun v => v.name == "멜로디" || v.name.startsWith ("멜로디")))
      let h1 := alloc1.1
      let mRef := alloc1.2
      let alloc2 := h1.alloc (vs.filter (fun v => !(v.name == "멜로디") && !(v.name.startsWith ("멜로디"))))
      let h2 := alloc2.1
      let oRef := alloc2.2
      let h3 :=
        if sortBy == "notes" then h2.write oRef (jsSort (compareLe notesCompare) (h2.read oRef))
        else if sortBy == "instrument" then
          h2.write oRef (jsSort (compareLe (instrumentCompare lc)) (h2.read oRef))
        else h2
      h3.alloc (h3.read mRef ++ h3.read oRef)


/-- The reactive component state of App.svelte (the `$state` declarations
on lines 48-56). -/
structure AppState where
  isDragging : Bool
  isConverting : Bool
  result : Option ConversionResult
  fileName : String
  conversionMode : String
  charLimit : Int
  sortBy : String
  errorMessage : String
  copiedIndex : Int
deriving DecidableEq, Repr

/-- The initial component state (initialisers on lines 48-56). -/
def initialState : AppState :=
  { isDragging := false, isConverting := false, result := none, fileName := "",
    conversionMode := "normal", charLimit := 1200, sortBy := "notes",
    errorMessage := "", copiedIndex := -1 }

/-- The voice list rendered by the each-block on line 326: the current
result's voices put through `getSortedVoices` with the current sort key;
nothing is rendered without a result. -/
def displayedVoices (lc : String → String → Int) (σ : AppState) : List VoiceResult :=
  match σ.result with
  | none => []
  | some res => getSortedVoices lc (some res.voices) σ.sortBy

/-- The options object built for the `convert_midi` invocation
(App.svelte lines 151-155). -/
structure ConvertOptions where
  mode : String
  char_limit : Int
  compress_mode : Bool
deriving DecidableEq, Repr

/-- A full engine invocation request (lines 149-156): command name, the
midi bytes, and the options object. -/
structure InvokeRequest where
  cmd : String
  midiData : List Nat
  options : ConvertOptions
deriving DecidableEq, Repr

/-- The request `convertFile` sends to the engine for a given state and
byte buffer (lines 149-156). -/
def convertRequest (σ : AppState) (bytes : List Nat) : InvokeRequest :=
  { cmd := "convert_midi", midiData := bytes,
    options := { mode := σ.conversionMode, char_limit := σ.charLimit,
                 compress_mode := false } }

/-- Shallow embedding of `convertFile` (lines 140-168).  The two external
effects enter as parameters: `bytesResult` is the outcome of
`fs.readFile` and `engine` maps an invoke request to either a thrown
error (modelled by its string rendering) or a `ConversionResult`.  The
second component of the result is the request sent to the engine, `none`
when the engine was never invoked. -/
def convertFile (σ : AppState) (bytesResult : Except String (List Nat))
    (engine : InvokeRequest → Except String ConversionResult) :
    AppState × Option InvokeRequest :=
  let σ1 : AppState := { σ with isConverting := true, errorMessage := "", result := none }
  match bytesResult with
  | Except.error e =>
    ({ σ1 with errorMessage := "변환 오류: " ++ e, isConverting := false }, none)
  | Except.ok bytes =>
    let req := convertRequest σ1 bytes
    match engine req with
    | Except.error e =>
      ({ σ1 with errorMessage := "변환 오류: " ++ e, isConverting := false }, some req)
    | Except.ok conversionResult =>
      if conversionResult.success then
        ({ σ1 with result := some conversionResult, isConverting := false }, some req)
      else
        let errMsg :=
          match conversionResult.error with
          | some e => if e = "" then "변환 중 오류가 발생했습니다." else e
          | none => "변환 중 오류가 발생했습니다."
        ({ σ1 with errorMessage := errMsg, isConverting := false }, some req)

/-- Model of `String.prototype.toLowerCase` restricted to the simple
one-to-one case mappings (sufficient for the ASCII suffix checks of
`handleFileDrop`). -/
def jsToLower (s : String) : String :=
  s.map Char.toLower

/-- The file name computed on line 136: last segment of the path split at
slashes and backslashes, empty when `pop` yields nothing truthy. -/
def lastPathSegment (filePath : String) : String :=
  ((filePath.split (fun c => c == '/' || c == '\\')).getLast?).getD ("")

/-- Shallow embedding of `handleFileDrop` (lines 122-138).  Returns the
final state and the request sent to the engine (`none` when the engine
was never invoked). -/
def handleFileDrop (σ : AppState) (paths : List String)
    (bytesResult : Except String (List Nat))
    (engine : InvokeRequest → Except String ConversionResult) :
    AppState × Option InvokeRequest :=
  let σ0 : AppState := { σ with isDragging := false }
  match paths with
  | [] => (σ0, none)
  | filePath :: _ =>
    if !((jsToLower filePath).endsWith (".mid")) &&
       !((jsToLower filePath).endsWith (".midi")) then
      ({ σ0 with errorMessage := "MIDI 파일(.mid)만 지원됩니다." }, none)
    else
      convertFile { σ0 with fileName := lastPathSegment filePath } bytesResult engine

/-- Component state extended with the system clipboard, to make the
clipboard write of `copyToClipboard` observable. -/
structure World where
  app : AppState
  clipboard : String
deriving DecidableEq, Repr

/-- Shallow embedding of `copyToClipboard` (lines 170-177): writes the
content to the clipboard and records the copied index.  The delayed reset
of `copiedIndex` two seconds later is outside this model. -/
def copyToClipboard (w : World) (content : String) (index : Int) : World :=
  { w with clipboard := content, app := { w.app with copiedIndex := index } }

/-- Pressing the copy button of the voice card at position `idx` of the
rendered list (line 343): the handler receives exactly `voice.content`
and `idx` for the `idx`-th element of `getSortedVoices(result.voices,
sortBy)`. -/
def clickCopyButton (lc : String → String → Int) (w : World) (idx : Nat) : World :=
  match w.app.result with
  | none => w
  | some res =>
    match (getSortedVoices lc (some res.voices) w.app.sortBy)[idx]? with
    | none => w
    | some voice => copyToClipboard w voice.content (idx : Int)

/-- JS `Math.max` over a spread nonempty argument list (line 188); the
empty case is unreachable behind the guard on line 187. -/
def spreadMax : List ℚ → ℚ
  | [] => 0
  | d :: ds => ds.foldl max d

/-- Decimal digits of a natural number, least significant first, computed
with explicit fuel so that the definition is structural. -/
def natDigitsRevGo : Nat → Nat → List Nat
  | 0, _ => []
  | fuel + 1, n => if n = 0 then [] else (n % 10) :: natDigitsRevGo fuel (n / 10)

/-- Decimal digits of `n`, least significant first (`n` itself is enough
fuel). -/
def natDigitsRev (n : Nat) : List Nat :=
  natDigitsRevGo n n

/-- The ASCII character of a decimal digit. -/
def digitChar (d : Nat) : Char :=
  Char.ofNat (48 + d)

/-- Decimal string of a natural number, as JS `Number.prototype.toString`
renders a nonnegative integer. -/
def natToDecimal (n : Nat) : String :=
  if n = 0 then "0" else String.mk (((natDigitsRev n).reverse).map digitChar)

/-- JS `Number.prototype.toString` on an integer-valued number
(line 73: `charLimit.toString()`). -/
def jsIntToString (i : Int) : String :=
  if i < 0 then String.mk ('-' :: (natToDecimal i.natAbs).data)
  else natToDecimal i.natAbs

/-- Value of a most-significant-first decimal digit list. -/
def valOfDigits (ds : List Nat) : Nat :=
  ds.foldl (fun a d => a * 10 + d) 0

/-- The whitespace skipped by `parseInt` (the common cases). -/
def jsWhitespace (c : Char) : Bool :=
  c == ' ' || c == '\t' || c == '\n' || c == '\r'

/-- Longest digit prefix of a character list, `none` when there is no
leading digit (the NaN case of `parseInt`). -/
def parseNatPrefix (cs : List Char) : Option Nat :=
  let ds := cs.takeWhile Char.isDigit
  if ds = [] then none
  else some (valOfDigits (ds.map (fun c => c.toNat - 48)))

/-- Sign handling of `parseInt` after whitespace has been skipped. -/
def parseIntChars : List Char → Option Int
  | [] => none
  | c :: rest =>
    if c = '-' then (parseNatPrefix rest).map (fun n => -(n : Int))
    else if c = '+' then (parseNatPrefix rest).map (fun n => (n : Int))
    else (parseNatPrefix (c :: rest)).map (fun n => (n : Int))

/-- Model of `parseInt(s, 10)` (line 65): skip whitespace, optional sign,
longest digit prefix; `none` models NaN. -/
def jsParseInt10 (s : String) : Option Int :=
  parseIntChars (s.data.dropWhile jsWhitespace)

/-- Model of `Number.prototype.toFixed(1)` (line 189) on an exact rational
value: per the ECMAScript algorithm the sign is split off first, then the
magnitude is scaled by ten and rounded to the nearest integer, ties toward
the larger value. -/
def jsToFixed1 (q : ℚ) : String :=
  let sign := if q < 0 then "-" else ""
  let x := if q < 0 then -q else q
  let n := (⌊x * 10 + 1 / 2⌋).toNat
  sign ++ natToDecimal (n / 10) ++ "." ++ natToDecimal (n % 10)

/-- Shallow embedding of `getTotalDuration` (lines 186-190). -/
def getTotalDuration (σ : AppState) : String :=
  match σ.result with
  | none => "0초"
  | some res =>
    if res.voices.length = 0 then "0초"
    else jsToFixed1 (spreadMax (res.voices.map (fun v => v.duration))) ++ "초"

/-- The save effect (lines 70-76): writes the three settings under their
storage keys.  The store is modelled as a map from keys to stored
strings. -/
def saveSettings (σ : AppState) (store : String → Option String) :
    String → Option String :=
  fun k =>
    if k = "conversionMode" then some σ.conversionMode
    else if k = "charLimit" then some (jsIntToString σ.charLimit)
    else if k = "sortBy" then some σ.sortBy
    else store k

/-- The load effect (lines 58-68): each setting is restored when its
stored string is truthy (present and nonempty); `charLimit` goes through
`parseInt(·, 10)`.  A failed parse keeps the previous value in this model
(for values written by the save effect the parse always succeeds, see the
round-trip theorem). -/
def loadSettings (σ : AppState) (store : String → Option String) : AppState :=
  let σ1 :=
    match store "conversionMode" with
    | some m => if m = "" then σ else { σ with conversionMode := m }
    | none => σ
  let σ2 :=
    match store "charLimit" with
    | some l => if l = "" then σ1 else
        { σ1 with charLimit := (jsParseInt10 l).getD σ1.charLimit }
    | none => σ1
  match store "sortBy" with
  | some sb => if sb = "" then σ2 else { σ2 with sortBy := sb }
  | none => σ2

/-- A concrete locale comparison used by the witnesses: the
lexicographic order on strings rendered as a three-valued comparator. -/
def exLc (s t : String) : Int :=
  if s = t then 0 else if s < t then -1 else 1

/-- Concrete melody voice for the witnesses. -/
def exVoiceMel : VoiceResult :=
  { name := "멜로디", content := "t120cde", char_count := 7, note_count := 7, duration := 3 }

/-- Concrete violin voice for the witnesses. -/
def exVoiceVio : VoiceResult :=
  { name := "화음1 (Violin)", content := "t120efg", char_count := 7, note_count := 4,
    duration := 2 }

/-- Concrete flute voice for the witnesses. -/
def exVoiceFlu : VoiceResult :=
  { name := "화음2 (Flute)", content := "t120gab", char_count := 7, note_count := 9,
    duration := 2 }

/-- Concrete voice list for the witnesses. -/
def exVoices : List VoiceResult :=
  [exVoiceVio, exVoiceMel, exVoiceFlu]

/-- Concrete one-cell heap for the witnesses. -/
def exHeap : JsHeap :=
  { cells := [exVoices] }

/-- Concrete successful conversion result for the witnesses. -/
def exResult : ConversionResult :=
  { success := true, voices := exVoices, error := none, bpm := 120, total_notes := 20 }

/-- Concrete failed conversion result for the witnesses. -/
def exFailResult : ConversionResult :=
  { success := false, voices := [], error := some "bad midi", bpm := 0, total_notes := 0 }

/-- A concrete engine that reports the failure above. -/
def exEngineFail : InvokeRequest → Except String ConversionResult :=
  fun _ => Except.ok exFailResult
/-- The second filter of `getSortedVoices` is the pointwise negation of the
melody test. -/
theorem filter_others_eq_not_isMelody (vs : List VoiceResult) :
    vs.filter (fun v => !(v.name == "멜로디") && !(v.name.startsWith ("멜로디"))) =
      vs.filter (fun v => !(isMelody v)) := by
  apply List.filter_congr
  intro v _
  simp [isMelody]

/-- Unfolding of `getSortedVoices` in the nonempty case: melody filter
followed by the branch-sorted remainder. -/
theorem getSortedVoices_eq_branches (lc : String → String → Int)
    (vs : List VoiceResult) (sortBy : String) (hlen : ¬ vs.length = 0) :
    getSortedVoices lc (some vs) sortBy =
      vs.filter (fun v => v.name == "멜로디" || v.name.startsWith ("멜로디")) ++
      (if sortBy == "notes" then
        jsSort (compareLe notesCompare)
          (vs.filter (fun v => !(v.name == "멜로디") && !(v.name.startsWith ("멜로디"))))
      else if sortBy == "instrument" then
        jsSort (compareLe (instrumentCompare lc))
          (vs.filter (fun v => !(v.name == "멜로디") && !(v.name.startsWith ("멜로디"))))
      else
        vs.filter (fun v => !(v.name == "멜로디") && !(v.name.startsWith ("멜로디")))) := by
  simp only [getSortedVoices, hlen, if_false]

/-- C1: for every voice list and every sort key, `getSortedVoices` returns a
permutation of its input in which all melody-named voices come first (in
their input order) and all remaining voices follow. -/
theorem getSortedVoices_perm_melody_first (lc : String → String → Int)
    (vs : List VoiceResult) (sortBy : String) :
    (getSortedVoices lc (some vs) sortBy).Perm vs ∧
    ∃ os, getSortedVoices lc (some vs) sortBy =
        vs.filter (fun v => isMelody v) ++ os ∧
      os.Perm (vs.filter (fun v => !(isMelody v))) ∧
      ∀ v ∈ os, isMelody v = false := by
  by_cases hlen : vs.length = 0
  · rcases List.length_eq_zero.mp hlen with rfl
    exact ⟨by simp [getSortedVoices], [], by simp [getSortedVoices], by simp, by simp⟩
  · have hmel : vs.filter (fun v => v.name == "멜로디" || v.name.startsWith ("멜로디")) =
        vs.filter (fun v => isMelody v) := by
      apply List.filter_congr
      intro v _
      simp [isMelody]
    have hsplit : ∀ os : List VoiceResult,
        os.Perm (vs.filter (fun v => !(v.name == "멜로디") && !(v.name.startsWith ("멜로디")))) →
        (vs.filter (fun v => isMelody v) ++ os).Perm vs ∧
        os.Perm (vs.filter (fun v => !(isMelody v))) ∧
        ∀ v ∈ os, isMelody v = false := by
      intro os hos
      have hos2 : os.Perm (vs.filter (fun v => !(isMelody v))) :=
        (filter_others_eq_not_isMelody vs) ▸ hos
      refine ⟨?_, hos2, ?_⟩
      · exact (List.Perm.append_left _ hos2).trans (List.filter_append_perm _ vs)
      · intro v hv
        have hv2 : v ∈ vs.filter (fun v => !(isMelody v)) := hos2.mem_iff.mp hv
        simpa using List.of_mem_filter hv2
    rw [getSortedVoices_eq_branches lc vs sortBy hlen, hmel]
    by_cases hn : sortBy == "notes"
    · simp only [hn, if_true]
      rcases hsplit _
        (List.perm_insertionSort (fun a b => compareLe notesCompare a b = true) _) with
        ⟨h1, h2, h3⟩
      exact ⟨h1, _, rfl, h2, h3⟩
    · by_cases hi : sortBy == "instrument"
      · simp only [hn, hi, if_false, if_true]
        rcases hsplit _
          (List.perm_insertionSort
            (fun a b => compareLe (instrumentCompare lc) a b = true) _) with
          ⟨h1, h2, h3⟩
        exact ⟨h1, _, rfl, h2, h3⟩
      · simp only [hn, hi, if_false]
        rcases hsplit _ (List.Perm.refl _) with ⟨h1, h2, h3⟩
        exact ⟨h1, _, rfl, h2, h3⟩
/-- Reading below the allocation point is unaffected by an allocation. -/
theorem JsHeap.read_alloc_lt (h : JsHeap) (v : List VoiceResult) (r : Nat)
    (hr : r < h.cells.length) : (h.alloc v).1.read r = h.read r := by
  simp [JsHeap.read, JsHeap.alloc, List.getElem?_append_left hr]

/-- Reading a freshly allocated reference yields the allocated value. -/
theorem JsHeap.read_alloc_self (h : JsHeap) (v : List VoiceResult) :
    (h.alloc v).1.read (h.alloc v).2 = v := by
  simp [JsHeap.read, JsHeap.alloc, List.getElem?_concat_length]

/-- Writing one cell leaves every other cell unchanged. -/
theorem JsHeap.read_write_ne (h : JsHeap) (v : List VoiceResult) (s r : Nat)
    (hne : s ≠ r) : (h.write s v).read r = h.read r := by
  simp [JsHeap.read, JsHeap.write, List.getElem?_set_ne hne]

/-- Reading back a written cell yields the written value. -/
theorem JsHeap.read_write_self (h : JsHeap) (s : Nat) (v : List VoiceResult)
    (hs : s < h.cells.length) : (h.write s v).read s = v := by
  simp [JsHeap.read, JsHeap.write, List.getElem?_set_self hs]

/-- Allocation grows the heap by one cell. -/
theorem JsHeap.length_alloc (h : JsHeap) (v : List VoiceResult) :
    (h.alloc v).1.cells.length = h.cells.length + 1 := by
  simp [JsHeap.alloc]

/-- The reference of the second of two consecutive allocations. -/
theorem JsHeap.snd_alloc_alloc (h : JsHeap) (m o : List VoiceResult) :
    ((h.alloc m).1.alloc o).2 = h.cells.length + 1 := by
  simp [JsHeap.alloc]

/-- After allocating twice and writing the second cell, a pre-existing cell
still reads its original value. -/
theorem JsHeap.write_branch_read_r (h : JsHeap) (m o w : List VoiceResult) (r : Nat)
    (hr : r < h.cells.length) :
    (((h.alloc m).1.alloc o).1.write ((h.alloc m).1.alloc o).2 w).read r = h.read r := by
  rw [JsHeap.read_write_ne]
  · rw [JsHeap.read_alloc_lt, JsHeap.read_alloc_lt _ _ _ hr]
    rw [JsHeap.length_alloc]
    omega
  · rw [JsHeap.snd_alloc_alloc]
    omega

/-- After allocating twice and writing the second cell, the first allocated
cell still reads its allocated value. -/
theorem JsHeap.write_branch_read_m (h : JsHeap) (m o w : List VoiceResult) :
    (((h.alloc m).1.alloc o).1.write ((h.alloc m).1.alloc o).2 w).read (h.alloc m).2 = m := by
  rw [JsHeap.read_write_ne]
  · rw [JsHeap.read_alloc_lt]
    · exact JsHeap.read_alloc_self h m
    · show h.cells.length < (h.alloc m).1.cells.length
      rw [JsHeap.length_alloc]
      omega
  · rw [JsHeap.snd_alloc_alloc]
    show h.cells.length + 1 ≠ h.cells.length
    omega

/-- After allocating twice and writing the second cell, the second cell
reads the written value. -/
theorem JsHeap.write_branch_read_o (h : JsHeap) (m o w : List VoiceResult) :
    (((h.alloc m).1.alloc o).1.write ((h.alloc m).1.alloc o).2 w).read
      ((h.alloc m).1.alloc o).2 = w := by
  apply JsHeap.read_write_self
  rw [JsHeap.snd_alloc_alloc, JsHeap.length_alloc, JsHeap.length_alloc]
  omega

/-- Writing preserves the heap size. -/
theorem JsHeap.length_write (h : JsHeap) (s : Nat) (v : List VoiceResult) :
    (h.write s v).cells.length = h.cells.length := by
  simp [JsHeap.write]

/-- Two allocations leave a pre-existing cell unchanged. -/
theorem JsHeap.nowrite_read_r (h : JsHeap) (m o : List VoiceResult) (r : Nat)
    (hr : r < h.cells.length) :
    ((h.alloc m).1.alloc o).1.read r = h.read r := by
  rw [JsHeap.read_alloc_lt, JsHeap.read_alloc_lt _ _ _ hr]
  rw [JsHeap.length_alloc]
  omega

/-- The first of two allocated cells reads its allocated value. -/
theorem JsHeap.nowrite_read_m (h : JsHeap) (m o : List VoiceResult) :
    ((h.alloc m).1.alloc o).1.read (h.alloc m).2 = m := by
  rw [JsHeap.read_alloc_lt]
  · exact JsHeap.read_alloc_self h m
  · show h.cells.length < (h.alloc m).1.cells.length
    rw [JsHeap.length_alloc]
    omega

/-- The second of two allocated cells reads its allocated value. -/
theorem JsHeap.nowrite_read_o (h : JsHeap) (m o : List VoiceResult) :
    ((h.alloc m).1.alloc o).1.read ((h.alloc m).1.alloc o).2 = o :=
  JsHeap.read_alloc_self _ o

/-- C2: `getSortedVoices` is a read-only view transform.  On the heap model
the call leaves the argument array untouched, returns a reference distinct
from the argument (a freshly built array), the fresh array holds exactly
the value of the pure function, a missing (null) input yields the empty
list, and an empty input yields the empty list. -/
theorem getSortedVoicesHeap_read_only (lc : String → String → Int) (h : JsHeap)
    (r : Nat) (sortBy : String) (hr : r < h.cells.length) :
    ((getSortedVoicesHeap lc h (some r) sortBy).1.read r = h.read r) ∧
    ((getSortedVoicesHeap lc h (some r) sortBy).2 ≠ r) ∧
    ((getSortedVoicesHeap lc h (some r) sortBy).1.read
        (getSortedVoicesHeap lc h (some r) sortBy).2 =
      getSortedVoices lc (some (h.read r)) sortBy) ∧
    ((getSortedVoicesHeap lc h none sortBy).1.read
        (getSortedVoicesHeap lc h none sortBy).2 = []) ∧
    (h.read r = [] →
      (getSortedVoicesHeap lc h (some r) sortBy).1.read
        (getSortedVoicesHeap lc h (some r) sortBy).2 = []) := by
  have hnone : (getSortedVoicesHeap lc h none sortBy).1.read
      (getSortedVoicesHeap lc h none sortBy).2 = [] := by
    simp only [getSortedVoicesHeap]
    exact JsHeap.read_alloc_self h []
  by_cases hlen : (h.read r).length = 0
  · have hempty : getSortedVoicesHeap lc h (some r) sortBy = h.alloc [] := by
      simp only [getSortedVoicesHeap]
      rw [if_pos hlen]
    refine ⟨?_, ?_, ?_, hnone, fun _ => ?_⟩
    · rw [hempty]
      exact JsHeap.read_alloc_lt h [] r hr
    · rw [hempty]
      show h.cells.length ≠ r
      omega
    · rw [hempty, JsHeap.read_alloc_self]
      simp [getSortedVoices, hlen]
    · rw [hempty]
      exact JsHeap.read_alloc_self h []
  · have hval : (getSortedVoicesHeap lc h (some r) sortBy).1.read
        (getSortedVoicesHeap lc h (some r) sortBy).2 =
        getSortedVoices lc (some (h.read r)) sortBy := by
      simp only [getSortedVoicesHeap]
      rw [if_neg hlen]
      rw [getSortedVoices_eq_branches lc (h.read r) sortBy hlen]
      by_cases hn : (sortBy == "notes") = true
      · rw [if_pos hn, if_pos hn, JsHeap.read_alloc_self, JsHeap.write_branch_read_m,
          JsHeap.write_branch_read_o, JsHeap.nowrite_read_o]
      · rw [if_neg hn, if_neg hn]
        by_cases hi : (sortBy == "instrument") = true
        · rw [if_pos hi, if_pos hi, JsHeap.read_alloc_self, JsHeap.write_branch_read_m,
            JsHeap.write_branch_read_o, JsHeap.nowrite_read_o]
        · rw [if_neg hi, if_neg hi, JsHeap.read_alloc_self, JsHeap.nowrite_read_m,
            JsHeap.nowrite_read_o]
    have hreadr : (getSortedVoicesHeap lc h (some r) sortBy).1.read r = h.read r := by
      simp only [getSortedVoicesHeap]
      rw [if_neg hlen]
      by_cases hn : (sortBy == "notes") = true
      · rw [if_pos hn]
        rw [JsHeap.read_alloc_lt]
        · exact JsHeap.write_branch_read_r h _ _ _ r hr
        · rw [JsHeap.length_write, JsHeap.length_alloc, JsHeap.length_alloc]
          omega
      · rw [if_neg hn]
        by_cases hi : (sortBy == "instrument") = true
        · rw [if_pos hi]
          rw [JsHeap.read_alloc_lt]
          · exact JsHeap.write_branch_read_r h _ _ _ r hr
          · rw [JsHeap.length_write, JsHeap.length_alloc, JsHeap.length_alloc]
            omega
        · rw [if_neg hi]
          rw [JsHeap.read_alloc_lt]
          · exact JsHeap.nowrite_read_r h _ _ r hr
          · rw [JsHeap.length_alloc, JsHeap.length_alloc]
            omega
    have hfresh : (getSortedVoicesHeap lc h (some r) sortBy).2 ≠ r := by
      simp only [getSortedVoicesHeap]
      rw [if_neg hlen]
      by_cases hn : (sortBy == "notes") = true
      · rw [if_pos hn]
        show (JsHeap.write _ _ _).cells.length ≠ r
        rw [JsHeap.length_write, JsHeap.length_alloc, JsHeap.length_alloc]
        omega
      · rw [if_neg hn]
        by_cases hi : (sortBy == "instrument") = true
        · rw [if_pos hi]
          show (JsHeap.write _ _ _).cells.length ≠ r
          rw [JsHeap.length_write, JsHeap.length_alloc, JsHeap.length_alloc]
          omega
        · rw [if_neg hi]
          show (JsHeap.alloc _ _).1.cells.length ≠ r
          rw [JsHeap.length_alloc, JsHeap.length_alloc]
          omega
    refine ⟨hreadr, hfresh, hval, hnone, fun hre => ?_⟩
    rw [hre] at hlen
    simp at hlen

/-- The melody filter of `getSortedVoices` written through `isMelody`. -/
theorem filter_melody_eq_isMelody (vs : List VoiceResult) :
    vs.filter (fun v => v.name == "멜로디" || v.name.startsWith ("멜로디")) =
      vs.filter (fun v => isMelody v) := by
  apply List.filter_congr
  intro v _
  simp [isMelody]

/-- The boolean instrument order is total whenever the locale comparison
is. -/
theorem instrumentLe_total (lc : String → String → Int)
    (hTotal : ∀ s t, lc s t ≤ 0 ∨ lc t s ≤ 0) (a b : VoiceResult) :
    (compareLe (instrumentCompare lc) a b || compareLe (instrumentCompare lc) b a) = true := by
  simp only [compareLe, instrumentCompare, Bool.or_eq_true, decide_eq_true_eq, beq_iff_eq]
  by_cases h : extractInstrument a.name = extractInstrument b.name
  · have h2 : extractInstrument b.name = extractInstrument a.name := h.symm
    rw [if_pos h, if_pos h2]
    omega
  · have h2 : ¬ extractInstrument b.name = extractInstrument a.name := fun e => h e.symm
    rw [if_neg h, if_neg h2]
    exact hTotal _ _

/-- The boolean instrument order is transitive whenever the locale
comparison is transitive and antisymmetric on its nonpositive part. -/
theorem instrumentLe_trans (lc : String → String → Int)
    (hTrans : ∀ s t u, lc s t ≤ 0 → lc t u ≤ 0 → lc s u ≤ 0)
    (hAntisym : ∀ s t, lc s t ≤ 0 → lc t s ≤ 0 → s = t)
    (a b c : VoiceResult)
    (hab : compareLe (instrumentCompare lc) a b = true)
    (hbc : compareLe (instrumentCompare lc) b c = true) :
    compareLe (instrumentCompare lc) a c = true := by
  simp only [compareLe, instrumentCompare, decide_eq_true_eq, beq_iff_eq] at hab hbc ⊢
  set A := extractInstrument a.name with hA
  set B := extractInstrument b.name with hB
  set C := extractInstrument c.name with hC
  by_cases h1 : A = B
  · by_cases h2 : B = C
    · rw [if_pos h1] at hab
      rw [if_pos h2] at hbc
      rw [if_pos (h1.trans h2)]
      omega
    · rw [if_pos h1] at hab
      rw [if_neg h2] at hbc
      have h3 : ¬ A = C := fun e => h2 (h1.symm.trans e)
      rw [if_neg h3, h1]
      exact hbc
  · by_cases h2 : B = C
    · rw [if_neg h1] at hab
      rw [if_pos h2] at hbc
      have h3 : ¬ A = C := fun e => h1 (e.trans h2.symm)
      rw [if_neg h3, ← h2]
      exact hab
    · rw [if_neg h1] at hab
      rw [if_neg h2] at hbc
      by_cases h3 : A = C
      · exfalso
        apply h1
        apply hAntisym A B hab
        rw [h3]
        exact hbc
      · rw [if_neg h3]
        exact hTrans A B C hab hbc

/-- C5: with the sort key for instruments, the non-melody voices are
returned as a permutation of the non-melody input, ordered by the
instrument name extracted from the first parenthesized group of the voice
name under the locale comparison, voices with equal extracted instruments
being ordered by descending note count.  The locale comparison is assumed
total, transitive, and antisymmetric on its nonpositive part. -/
theorem getSortedVoices_instrument_order (lc : String → String → Int)
    (vs : List VoiceResult)
    (hTotal : ∀ s t, lc s t ≤ 0 ∨ lc t s ≤ 0)
    (hTrans : ∀ s t u, lc s t ≤ 0 → lc t u ≤ 0 → lc s u ≤ 0)
    (hAntisym : ∀ s t, lc s t ≤ 0 → lc t s ≤ 0 → s = t) :
    ∃ os, getSortedVoices lc (some vs) "instrument" =
        vs.filter (fun v => isMelody v) ++ os ∧
      os.Perm (vs.filter (fun v => !(isMelody v))) ∧
      os.Pairwise (fun a b =>
        (extractInstrument a.name = extractInstrument b.name →
          b.note_count ≤ a.note_count) ∧
        (extractInstrument a.name ≠ extractInstrument b.name →
          lc (extractInstrument a.name) (extractInstrument b.name) ≤ 0)) := by
  by_cases hlen : vs.length = 0
  · rcases List.length_eq_zero.mp hlen with rfl
    exact ⟨[], by simp [getSortedVoices], by simp, by simp⟩
  · rw [getSortedVoices_eq_branches lc vs "instrument" hlen]
    rw [if_neg (by decide), if_pos (by decide)]
    rw [filter_melody_eq_isMelody]
    refine ⟨_, rfl, ?_, ?_⟩
    · rw [← filter_others_eq_not_isMelody]
      exact List.perm_insertionSort
        (fun a b => compareLe (instrumentCompare lc) a b = true) _
    · haveI : IsTrans VoiceResult (fun a b => compareLe (instrumentCompare lc) a b = true) :=
        ⟨fun a b c hab hbc => instrumentLe_trans lc hTrans hAntisym a b c hab hbc⟩
      haveI : IsTotal VoiceResult (fun a b => compareLe (instrumentCompare lc) a b = true) :=
        ⟨fun a b => by
          have h := instrumentLe_total lc hTotal a b
          simpa [Bool.or_eq_true] using h⟩
      have hp := List.sorted_insertionSort
        (fun a b => compareLe (instrumentCompare lc) a b = true)
        (vs.filter (fun v => !(v.name == "멜로디") && !(v.name.startsWith ("멜로디"))))
      refine List.Pairwise.imp ?_ hp
      intro a b hle
      simp only [compareLe, instrumentCompare, decide_eq_true_eq, beq_iff_eq] at hle
      constructor
      · intro he
        rw [if_pos he] at hle
        omega
      · intro hne
        rw [if_neg hne] at hle
        exact hle

/-- C7: the rendered voice list is deterministic and stateless.  Two
states that agree on the result voices and the sort key render the same
list, whatever the rest of the component state holds. -/
theorem displayedVoices_stateless (lc : String → String → Int)
    (σ1 σ2 : AppState) (r1 r2 : ConversionResult)
    (h1 : σ1.result = some r1) (h2 : σ2.result = some r2)
    (hv : r1.voices = r2.voices) (hs : σ1.sortBy = σ2.sortBy) :
    displayedVoices lc σ1 = displayedVoices lc σ2 := by
  simp [displayedVoices, h1, h2, hv, hs]

/-- C3: when the engine reports a failed conversion, `convertFile` leaves
the displayed result `none` and shows the returned error string verbatim
whenever it is present and nonempty. -/
theorem convertFile_failure_shows_error (σ : AppState) (bytes : List Nat)
    (engine : InvokeRequest → Except String ConversionResult)
    (r : ConversionResult)
    (heng : engine (convertRequest σ bytes) = Except.ok r)
    (hfail : r.success = false) :
    (convertFile σ (Except.ok bytes) engine).1.result = none ∧
    (∀ e, r.error = some e → e ≠ "" →
      (convertFile σ (Except.ok bytes) engine).1.errorMessage = e) := by
  have hreq : convertRequest
      ({ σ with isConverting := true, errorMessage := "", result := none }) bytes =
      convertRequest σ bytes := rfl
  constructor
  · simp [convertFile, hreq, heng, hfail]
  · intro e he hne
    simp [convertFile, hreq, heng, hfail, he, hne]

/-- C8: the engine is always invoked with the request built by
`convertRequest`: an options object holding exactly the current mode, the
current character limit, and a compression flag that is always `false`. -/
theorem convertFile_options_compress_off (σ : AppState) (bytes : List Nat)
    (engine : InvokeRequest → Except String ConversionResult) :
    (convertFile σ (Except.ok bytes) engine).2 = some (convertRequest σ bytes) ∧
    (convertRequest σ bytes).options =
      { mode := σ.conversionMode, char_limit := σ.charLimit, compress_mode := false } ∧
    (convertRequest σ bytes).options.compress_mode = false ∧
    (∀ e, (convertFile σ (Except.error e) engine).2 = none) := by
  have hreq : convertRequest
      ({ σ with isConverting := true, errorMessage := "", result := none }) bytes =
      convertRequest σ bytes := rfl
  refine ⟨?_, rfl, rfl, fun e => by simp [convertFile]⟩
  simp only [convertFile, hreq]
  cases heng : engine (convertRequest σ bytes) with
  | error e => simp
  | ok cr =>
    by_cases hs : cr.success <;> simp [hs]

/-- C9 counterexample: with an empty path list `handleFileDrop` is not a
no-op — line 123 clears the drag-highlight flag before the length guard,
so a dragging state changes. -/
theorem handleFileDrop_empty_not_noop :
    (handleFileDrop { initialState with isDragging := true } []
        (Except.error "") (fun _ => Except.error "")).1 ≠
      { initialState with isDragging := true } := by
  decide

/-- C9 (amended): `handleFileDrop` starts a conversion only when the
first path ends, case-insensitively, in the midi suffixes; any other
nonempty path list only sets the error message (clearing the drag flag),
sends no request, and leaves result and file name unchanged; an empty
path list changes nothing except clearing the drag flag. -/
theorem handleFileDrop_spec (σ : AppState) (paths : List String)
    (bytesResult : Except String (List Nat))
    (engine : InvokeRequest → Except String ConversionResult) :
    (handleFileDrop σ [] bytesResult engine = ({ σ with isDragging := false }, none)) ∧
    (∀ p rest, paths = p :: rest →
      (((jsToLower p).endsWith (".mid") = false ∧
        (jsToLower p).endsWith (".midi") = false) →
        handleFileDrop σ paths bytesResult engine =
          ({ σ with
              isDragging := false
              errorMessage := "MIDI 파일(.mid)만 지원됩니다." }, none)) ∧
      ((handleFileDrop σ paths bytesResult engine).2 ≠ none →
        ((jsToLower p).endsWith (".mid") = true ∨
         (jsToLower p).endsWith (".midi") = true))) := by
  refine ⟨by simp [handleFileDrop], ?_⟩
  rintro p rest rfl
  constructor
  · rintro ⟨h1, h2⟩
    simp [handleFileDrop, h1, h2]
  · intro hinv
    by_cases h1 : (jsToLower p).endsWith (".mid")
    · exact Or.inl h1
    · by_cases h2 : (jsToLower p).endsWith (".midi")
      · exact Or.inr h2
      · exfalso
        apply hinv
        simp [handleFileDrop, Bool.eq_false_iff.mpr h1, Bool.eq_false_iff.mpr h2]

/-- C6: pressing the copy button of the voice card at index `idx` writes
exactly that voice's content string to the clipboard. -/
theorem clickCopy_writes_voice_content (lc : String → String → Int) (w : World)
    (idx : Nat) (res : ConversionResult) (voice : VoiceResult)
    (hres : w.app.result = some res)
    (hv : (getSortedVoices lc (some res.voices) w.app.sortBy)[idx]? = some voice) :
    (clickCopyButton lc w idx).clipboard = voice.content := by
  simp [clickCopyButton, hres, hv, copyToClipboard]

/-- A left fold of `max` yields either its seed or a list element, is at
least the seed, and bounds every element. -/
theorem foldl_max_spec (ds : List ℚ) (d : ℚ) :
    (ds.foldl max d = d ∨ ds.foldl max d ∈ ds) ∧
    d ≤ ds.foldl max d ∧
    ∀ x ∈ ds, x ≤ ds.foldl max d := by
  induction ds generalizing d with
  | nil => simp
  | cons a l ih =>
    simp only [List.foldl_cons]
    rcases ih (max d a) with ⟨hmem, hle, hub⟩
    refine ⟨?_, ?_, ?_⟩
    · rcases hmem with h | h
      · rcases max_choice d a with hc | hc
        · exact Or.inl (by rw [h, hc])
        · exact Or.inr (by rw [h, hc]; exact List.mem_cons_self a l)
      · exact Or.inr (List.mem_cons_of_mem a h)
    · exact le_trans (le_max_left d a) hle
    · intro x hx
      rcases List.mem_cons.mp hx with rfl | hx
      · exact le_trans (le_max_right d x) hle
      · exact hub x hx

/-- C10: `getTotalDuration` renders the zero string without a result or
with an empty voice list, and otherwise the maximum duration across the
result's voices formatted by the one-decimal formatter and suffixed with
the seconds marker. -/
theorem getTotalDuration_spec (σ : AppState) :
    (σ.result = none → getTotalDuration σ = "0초") ∧
    (∀ res, σ.result = some res → res.voices.length = 0 →
      getTotalDuration σ = "0초") ∧
    (∀ res, σ.result = some res → res.voices ≠ [] →
      ∃ m, (∃ v ∈ res.voices, v.duration = m) ∧
        (∀ v ∈ res.voices, v.duration ≤ m) ∧
        getTotalDuration σ = jsToFixed1 m ++ "초") := by
  refine ⟨?_, ?_, ?_⟩
  · intro h
    simp [getTotalDuration, h]
  · intro res h hlen
    simp [getTotalDuration, h, hlen]
  · intro res h hne
    refine ⟨spreadMax (res.voices.map (fun v => v.duration)), ?_, ?_, ?_⟩
    · rcases List.exists_cons_of_ne_nil hne with ⟨v, vsr, hvs⟩
      rw [hvs]
      simp only [List.map_cons, spreadMax]
      rcases (foldl_max_spec (vsr.map (fun v => v.duration)) v.duration).1 with hv | hv
      · exact ⟨v, List.mem_cons_self v vsr, hv.symm⟩
      · rcases List.mem_map.mp hv with ⟨u, hu, hud⟩
        exact ⟨u, List.mem_cons_of_mem v hu, hud⟩
    · rcases List.exists_cons_of_ne_nil hne with ⟨v, vsr, hvs⟩
      rw [hvs]
      simp only [List.map_cons, spreadMax]
      intro u hu
      rcases List.mem_cons.mp hu with rfl | hu
      · exact (foldl_max_spec (vsr.map (fun w => w.duration)) u.duration).2.1
      · exact (foldl_max_spec (vsr.map (fun w => w.duration)) v.duration).2.2
          u.duration (List.mem_map.mpr ⟨u, hu, rfl⟩)
    · have hlen : ¬ res.voices.length = 0 := by
        simpa [List.length_eq_zero] using hne
      simp [getTotalDuration, h, hlen]

/-- Appending a digit multiplies the value by ten and adds the digit. -/
theorem valOfDigits_append (ds : List Nat) (d : Nat) :
    valOfDigits (ds ++ [d]) = valOfDigits ds * 10 + d := by
  simp [valOfDigits, List.foldl_append]

/-- The reversed fuelled digit list evaluates back to its number. -/
theorem natDigitsRevGo_val (fuel : Nat) : ∀ n : Nat, n ≤ fuel →
    valOfDigits ((natDigitsRevGo fuel n).reverse) = n := by
  induction fuel with
  | zero =>
    intro n hn
    interval_cases n
    simp [natDigitsRevGo, valOfDigits]
  | succ f ih =>
    intro n hn
    by_cases h0 : n = 0
    · subst h0
      simp [natDigitsRevGo, valOfDigits]
    · rw [natDigitsRevGo, if_neg h0, List.reverse_cons, valOfDigits_append,
        ih (n / 10) (by omega)]
      omega

/-- Every fuelled digit is a decimal digit. -/
theorem natDigitsRevGo_lt (fuel : Nat) : ∀ n : Nat, ∀ d ∈ natDigitsRevGo fuel n, d < 10 := by
  induction fuel with
  | zero =>
    intro n d hd
    simp [natDigitsRevGo] at hd
  | succ f ih =>
    intro n d hd
    by_cases h0 : n = 0
    · subst h0
      simp [natDigitsRevGo] at hd
    · rw [natDigitsRevGo, if_neg h0] at hd
      rcases List.mem_cons.mp hd with rfl | hd
      · exact Nat.mod_lt _ (by omega)
      · exact ih _ d hd

/-- The digit list of a positive number is nonempty. -/
theorem natDigitsRev_ne_nil (n : Nat) (h : n ≠ 0) : natDigitsRev n ≠ [] := by
  unfold natDigitsRev
  cases n with
  | zero => exact absurd rfl h
  | succ m =>
    rw [natDigitsRevGo, if_neg h]
    exact List.cons_ne_nil _ _

/-- A digit character is a digit and carries its value in its code. -/
theorem digitChar_isDigit (d : Nat) (hd : d < 10) :
    (digitChar d).isDigit = true ∧ (digitChar d).toNat = 48 + d := by
  interval_cases d <;> exact ⟨by decide, by decide⟩

/-- Recovering the digit from its character. -/
theorem digitChar_val (d : Nat) (hd : d < 10) : (digitChar d).toNat - 48 = d := by
  have h := (digitChar_isDigit d hd).2
  omega

/-- A digit character is not a sign and not whitespace. -/
theorem isDigit_not_special (c : Char) (hc : c.isDigit = true) :
    c ≠ '-' ∧ c ≠ '+' ∧ jsWhitespace c = false := by
  refine ⟨?_, ?_, ?_⟩
  · rintro rfl
    exact absurd hc (by decide)
  · rintro rfl
    exact absurd hc (by decide)
  · cases hjw : jsWhitespace c
    · rfl
    · exfalso
      simp only [jsWhitespace, Bool.or_eq_true, beq_iff_eq] at hjw
      rcases hjw with ((rfl | rfl) | rfl) | rfl <;> exact absurd hc (by decide)

/-- `takeWhile` keeps a list all of whose elements satisfy the predicate. -/
theorem takeWhile_eq_self_of_all (p : Char → Bool) (l : List Char)
    (h : ∀ x ∈ l, p x = true) : l.takeWhile p = l := by
  induction l with
  | nil => rfl
  | cons a l ih =>
    rw [List.takeWhile_cons, if_pos (h a (List.mem_cons_self a l))]
    rw [ih (fun x hx => h x (List.mem_cons_of_mem a hx))]

/-- Character decoding inverts character encoding on digit lists. -/
theorem val_map_digitChar (ds : List Nat) (h : ∀ d ∈ ds, d < 10) :
    (ds.map digitChar).map (fun c => c.toNat - 48) = ds := by
  induction ds with
  | nil => rfl
  | cons d l ih =>
    simp only [List.map_cons, List.cons.injEq]
    exact ⟨digitChar_val d (h d (List.mem_cons_self d l)),
      ih (fun x hx => h x (List.mem_cons_of_mem d hx))⟩

/-- Parsing the character rendering of a digit list yields its value. -/
theorem parseNatPrefix_digits (ds : List Nat) (h : ∀ d ∈ ds, d < 10)
    (hne : ds ≠ []) :
    parseNatPrefix (ds.map digitChar) = some (valOfDigits ds) := by
  unfold parseNatPrefix
  have hall : ∀ c ∈ ds.map digitChar, c.isDigit = true := by
    intro c hc
    rcases List.mem_map.mp hc with ⟨d, hd, rfl⟩
    exact (digitChar_isDigit d (h d hd)).1
  rw [takeWhile_eq_self_of_all _ _ hall]
  rw [if_neg (by simpa using hne)]
  rw [val_map_digitChar ds h]

/-- Parsing a rendered digit string (no sign) yields its value. -/
theorem parseIntChars_of_digits (ds : List Nat) (h : ∀ d ∈ ds, d < 10)
    (hne : ds ≠ []) :
    parseIntChars (ds.map digitChar) = some ((valOfDigits ds : Nat) : Int) := by
  obtain ⟨d, ds2, rfl⟩ := List.exists_cons_of_ne_nil hne
  have hd10 : d < 10 := h d (List.mem_cons_self d ds2)
  obtain ⟨hm, hp, _⟩ := isDigit_not_special _ (digitChar_isDigit d hd10).1
  rw [List.map_cons, parseIntChars, if_neg hm, if_neg hp, ← List.map_cons]
  rw [parseNatPrefix_digits _ h (List.cons_ne_nil d ds2)]
  simp

/-- A rendered digit string starts with a digit, so the whitespace skip
leaves it unchanged. -/
theorem dropWhile_ws_digits (ds : List Nat) (h : ∀ d ∈ ds, d < 10) :
    (ds.map digitChar).dropWhile jsWhitespace = ds.map digitChar := by
  cases ds with
  | nil => rfl
  | cons d ds2 =>
    have hd10 : d < 10 := h d (List.mem_cons_self d ds2)
    obtain ⟨_, _, hw⟩ := isDigit_not_special _ (digitChar_isDigit d hd10).1
    rw [List.map_cons, List.dropWhile_cons, if_neg (by simp [hw])]

/-- C4 core: `parseInt(·, 10)` inverts `toString` on every integer. -/
theorem jsParseInt10_toString (i : Int) : jsParseInt10 (jsIntToString i) = some i := by
  by_cases hneg : i < 0
  · have hn0 : i.natAbs ≠ 0 := by omega
    have hlt : ∀ d ∈ (natDigitsRev i.natAbs).reverse, d < 10 := by
      intro d hd
      exact natDigitsRevGo_lt _ _ d (List.mem_reverse.mp hd)
    have hne : (natDigitsRev i.natAbs).reverse ≠ [] := by
      simpa using natDigitsRev_ne_nil _ hn0
    rw [jsIntToString, if_pos hneg, natToDecimal, if_neg hn0]
    show parseIntChars
        (('-' :: ((natDigitsRev i.natAbs).reverse.map digitChar)).dropWhile jsWhitespace) =
      some i
    rw [List.dropWhile_cons, if_neg (by decide)]
    rw [parseIntChars, if_pos rfl]
    rw [parseNatPrefix_digits _ hlt hne]
    unfold natDigitsRev
    rw [natDigitsRevGo_val i.natAbs i.natAbs (le_refl _)]
    have hval : -(i.natAbs : Int) = i := by omega
    show some (-(i.natAbs : Int)) = some i
    rw [hval]
  · by_cases h0 : i.natAbs = 0
    · have hz : i = 0 := by omega
      subst hz
      decide
    · have hlt : ∀ d ∈ (natDigitsRev i.natAbs).reverse, d < 10 := by
        intro d hd
        exact natDigitsRevGo_lt _ _ d (List.mem_reverse.mp hd)
      have hne : (natDigitsRev i.natAbs).reverse ≠ [] := by
        simpa using natDigitsRev_ne_nil _ h0
      rw [jsIntToString, if_neg hneg, natToDecimal, if_neg h0]
      show parseIntChars
          ((((natDigitsRev i.natAbs).reverse).map digitChar).dropWhile jsWhitespace) =
        some i
      rw [dropWhile_ws_digits _ hlt]
      rw [parseIntChars_of_digits _ hlt hne]
      unfold natDigitsRev
      rw [natDigitsRevGo_val i.natAbs i.natAbs (le_refl _)]
      congr 1
      omega

/-- `toString` of an integer is never the empty string. -/
theorem jsIntToString_ne_empty (i : Int) : jsIntToString i ≠ "" := by
  intro he
  have hdata : (jsIntToString i).data = [] := by
    rw [he]
  unfold jsIntToString at hdata
  by_cases hneg : i < 0
  · rw [if_pos hneg] at hdata
    exact List.cons_ne_nil _ _ hdata
  · rw [if_neg hneg] at hdata
    unfold natToDecimal at hdata
    by_cases h0 : i.natAbs = 0
    · rw [if_pos h0] at hdata
      exact absurd hdata (by decide)
    · rw [if_neg h0] at hdata
      have hmap : List.map digitChar ((natDigitsRev i.natAbs).reverse) = [] := hdata
      have : (natDigitsRev i.natAbs).reverse = [] := List.map_eq_nil_iff.mp hmap
      exact natDigitsRev_ne_nil _ h0 (by simpa using this)

/-- C4: the settings persistence round-trips.  The save effect writes the
three settings under their storage keys (the character limit as a decimal
string), and the load effect restores exactly the saved values: the mode
and sort strings character for character (they are nonempty, being bound
to fixed select options), and the character limit through the
`toString`/`parseInt` round trip, which is exact for every integer. -/
theorem settings_round_trip (σ τ : AppState) (store : String → Option String)
    (hm : σ.conversionMode ≠ "") (hsb : σ.sortBy ≠ "") :
    (saveSettings σ store "conversionMode" = some σ.conversionMode) ∧
    (saveSettings σ store "charLimit" = some (jsIntToString σ.charLimit)) ∧
    (saveSettings σ store "sortBy" = some σ.sortBy) ∧
    ((loadSettings τ (saveSettings σ store)).conversionMode = σ.conversionMode) ∧
    ((loadSettings τ (saveSettings σ store)).charLimit = σ.charLimit) ∧
    ((loadSettings τ (saveSettings σ store)).sortBy = σ.sortBy) ∧
    (∀ i : Int, jsParseInt10 (jsIntToString i) = some i) := by
  have h1 : saveSettings σ store "conversionMode" = some σ.conversionMode := by
    unfold saveSettings
    rw [if_pos rfl]
  have h2 : saveSettings σ store "charLimit" = some (jsIntToString σ.charLimit) := by
    unfold saveSettings
    rw [if_neg (by decide), if_pos rfl]
  have h3 : saveSettings σ store "sortBy" = some σ.sortBy := by
    unfold saveSettings
    rw [if_neg (by decide), if_neg (by decide), if_pos rfl]
  refine ⟨h1, h2, h3, ?_, ?_, ?_, jsParseInt10_toString⟩
  all_goals
    simp [loadSettings, h1, h2, h3, hm, hsb, jsIntToString_ne_empty,
      jsParseInt10_toString]

/-- The witness comparator is nonpositive exactly on the lexicographic
order. -/
theorem exLc_le_iff (s t : String) : exLc s t ≤ 0 ↔ s ≤ t := by
  unfold exLc
  by_cases h1 : s = t
  · rw [if_pos h1]
    simp [le_of_eq h1]
  · rw [if_neg h1]
    by_cases h2 : s < t
    · rw [if_pos h2]
      simp [le_of_lt h2]
    · rw [if_neg h2]
      constructor
      · intro hc
        exact absurd hc (by decide)
      · intro hle
        exact absurd (lt_of_le_of_ne hle h1) h2

/-- Witness for the read-only behaviour of the sorted-voices view. -/
theorem getSortedVoicesHeap_read_only_witness :
    0 < exHeap.cells.length ∧
    (((getSortedVoicesHeap exLc exHeap (some 0) "notes").1.read 0 = exHeap.read 0) ∧
     ((getSortedVoicesHeap exLc exHeap (some 0) "notes").2 ≠ 0) ∧
     ((getSortedVoicesHeap exLc exHeap (some 0) "notes").1.read
         (getSortedVoicesHeap exLc exHeap (some 0) "notes").2 =
       getSortedVoices exLc (some (exHeap.read 0)) "notes") ∧
     ((getSortedVoicesHeap exLc exHeap none "notes").1.read
         (getSortedVoicesHeap exLc exHeap none "notes").2 = []) ∧
     (exHeap.read 0 = [] →
       (getSortedVoicesHeap exLc exHeap (some 0) "notes").1.read
         (getSortedVoicesHeap exLc exHeap (some 0) "notes").2 = [])) :=
  ⟨by decide, getSortedVoicesHeap_read_only exLc exHeap 0 "notes" (by decide)⟩

/-- Witness for the failure behaviour of `convertFile`. -/
theorem convertFile_failure_shows_error_witness :
    (exEngineFail (convertRequest initialState [77, 84]) = Except.ok exFailResult) ∧
    (exFailResult.success = false) ∧
    ((convertFile initialState (Except.ok [77, 84]) exEngineFail).1.result = none ∧
     (∀ e, exFailResult.error = some e → e ≠ "" →
       (convertFile initialState (Except.ok [77, 84]) exEngineFail).1.errorMessage = e)) :=
  ⟨rfl, rfl,
    convertFile_failure_shows_error initialState [77, 84] exEngineFail exFailResult rfl rfl⟩

/-- Witness for the settings round trip. -/
theorem settings_round_trip_witness :
    (initialState.conversionMode ≠ "") ∧ (initialState.sortBy ≠ "") ∧
    ((saveSettings initialState (fun _ => none) "conversionMode" =
        some initialState.conversionMode) ∧
     (saveSettings initialState (fun _ => none) "charLimit" =
        some (jsIntToString initialState.charLimit)) ∧
     (saveSettings initialState (fun _ => none) "sortBy" = some initialState.sortBy) ∧
     ((loadSettings initialState (saveSettings initialState (fun _ => none))).conversionMode =
        initialState.conversionMode) ∧
     ((loadSettings initialState (saveSettings initialState (fun _ => none))).charLimit =
        initialState.charLimit) ∧
     ((loadSettings initialState (saveSettings initialState (fun _ => none))).sortBy =
        initialState.sortBy) ∧
     (∀ i : Int, jsParseInt10 (jsIntToString i) = some i)) :=
  ⟨by decide, by decide,
    settings_round_trip initialState initialState (fun _ => none) (by decide) (by decide)⟩

/-- Witness for the instrument ordering of the sorted view. -/
theorem getSortedVoices_instrument_order_witness :
    (∀ s t, exLc s t ≤ 0 ∨ exLc t s ≤ 0) ∧
    (∀ s t u, exLc s t ≤ 0 → exLc t u ≤ 0 → exLc s u ≤ 0) ∧
    (∀ s t, exLc s t ≤ 0 → exLc t s ≤ 0 → s = t) ∧
    (∃ os, getSortedVoices exLc (some exVoices) "instrument" =
        exVoices.filter (fun v => isMelody v) ++ os ∧
      os.Perm (exVoices.filter (fun v => !(isMelody v))) ∧
      os.Pairwise (fun a b =>
        (extractInstrument a.name = extractInstrument b.name →
          b.note_count ≤ a.note_count) ∧
        (extractInstrument a.name ≠ extractInstrument b.name →
          exLc (extractInstrument a.name) (extractInstrument b.name) ≤ 0))) := by
  have htot : ∀ s t, exLc s t ≤ 0 ∨ exLc t s ≤ 0 := by
    intro s t
    rw [exLc_le_iff, exLc_le_iff]
    exact le_total s t
  have htrans : ∀ s t u, exLc s t ≤ 0 → exLc t u ≤ 0 → exLc s u ≤ 0 := by
    intro s t u h1 h2
    rw [exLc_le_iff] at h1 h2 ⊢
    exact le_trans h1 h2
  have hanti : ∀ s t, exLc s t ≤ 0 → exLc t s ≤ 0 → s = t := by
    intro s t h1 h2
    rw [exLc_le_iff] at h1 h2
    exact le_antisymm h1 h2
  exact ⟨htot, htrans, hanti,
    getSortedVoices_instrument_order exLc exVoices htot htrans hanti⟩

/-- Witness for the copy-button behaviour. -/
theorem clickCopy_writes_voice_content_witness :
    ((⟨{ initialState with result := some exResult }, ""⟩ : World).app.result = some exResult) ∧
    ((getSortedVoices exLc (some exResult.voices)
        (⟨{ initialState with result := some exResult }, ""⟩ : World).app.sortBy)[0]? =
      some exVoiceMel) ∧
    ((clickCopyButton exLc ⟨{ initialState with result := some exResult }, ""⟩ 0).clipboard =
      exVoiceMel.content) :=
  ⟨rfl, by decide,
    clickCopy_writes_voice_content exLc ⟨{ initialState with result := some exResult }, ""⟩
      0 exResult exVoiceMel rfl (by decide)⟩

/-- Witness for statelessness of the rendered voice list. -/
theorem displayedVoices_stateless_witness :
    (({ initialState with result := some exResult } : AppState).result = some exResult) ∧
    (({ initialState with result := some exResult, isDragging := true, isConverting := true, fileName := "a.mid", conversionMode := "instrument", charLimit := 99, errorMessage := "x", copiedIndex := 2 } : AppState).result = some exResult) ∧
    (exResult.voices = exResult.voices) ∧
    (({ initialState with result := some exResult } : AppState).sortBy =
      ({ initialState with result := some exResult, isDragging := true, isConverting := true, fileName := "a.mid", conversionMode := "instrument", charLimit := 99, errorMessage := "x", copiedIndex := 2 } : AppState).sortBy) ∧
    (displayedVoices exLc { initialState with result := some exResult } =
      displayedVoices exLc { initialState with result := some exResult, isDragging := true, isConverting := true, fileName := "a.mid", conversionMode := "instrument", charLimit := 99, errorMessage := "x", copiedIndex := 2 }) :=
  ⟨rfl, rfl, rfl, rfl,
    displayedVoices_stateless exLc
      { initialState with result := some exResult }
      { initialState with result := some exResult, isDragging := true, isConverting := true, fileName := "a.mid", conversionMode := "instrument", charLimit := 99, errorMessage := "x", copiedIndex := 2 }
      exResult exResult rfl rfl rfl rfl⟩

/-- Witness for the file-drop behaviour. -/
theorem handleFileDrop_spec_witness :
    (handleFileDrop initialState [] (Except.error "") exEngineFail =
      ({ initialState with isDragging := false }, none)) ∧
    (∀ p rest, (["a.txt"] : List String) = p :: rest →
      (((jsToLower p).endsWith (".mid") = false ∧
        (jsToLower p).endsWith (".midi") = false) →
        handleFileDrop initialState ["a.txt"] (Except.error "") exEngineFail =
          ({ initialState with isDragging := false, errorMessage := "MIDI 파일(.mid)만 지원됩니다." }, none)) ∧
      ((handleFileDrop initialState ["a.txt"] (Except.error "") exEngineFail).2 ≠ none →
        ((jsToLower p).endsWith (".mid") = true ∨
         (jsToLower p).endsWith (".midi") = true))) :=
  handleFileDrop_spec initialState ["a.txt"] (Except.error "") exEngineFail

/-- Witness for the total-duration rendering. -/
theorem getTotalDuration_spec_witness :
    (({ initialState with result := some exResult } : AppState).result = none →
      getTotalDuration { initialState with result := some exResult } = "0초") ∧
    (∀ res, ({ initialState with result := some exResult } : AppState).result = some res →
      res.voices.length = 0 →
      getTotalDuration { initialState with result := some exResult } = "0초") ∧
    (∀ res, ({ initialState with result := some exResult } : AppState).result = some res →
      res.voices ≠ [] →
      ∃ m, (∃ v ∈ res.voices, v.duration = m) ∧
        (∀ v ∈ res.voices, v.duration ≤ m) ∧
        getTotalDuration { initialState with result := some exResult } =
          jsToFixed1 m ++ "초") :=
  getTotalDuration_spec { initialState with result := some exResult }
